import Mathlib

/-!
Verification of the Starlia streaming multimodal response assembler and its
CDN image resolution pipeline, as a shallow embedding of the TypeScript
sources `src/utils/imageUrlParser.ts` and the Gemini service drivers
(`streamGeminiResponse`, `processTextWithCdnImages`, and the server-side
part merger).  JS strings are modelled as Lean `String` (scanned as
`List Char`); JS truthiness of optional string fields is modelled
explicitly; the `fetch`/network layer is abstracted as a pure oracle
`String → FetchOutcome` so that each run of the pipeline is deterministic.
-/

/-- The ECMAScript white-space and line-terminator characters recognized by
`String.prototype.trim` (the set JS uses when the source tests
`text.trim()` for truthiness). -/
def isJsWhitespace (c : Char) : Bool :=
  c = ' ' || c = '\t' || c = '\n' || c = '\r' ||
  c = '\x0b' || c = '\x0c' || c = '\u00a0' || c = '\u1680' ||
  ('\u2000' ≤ c && c ≤ '\u200a') || c = '\u2028' || c = '\u2029' ||
  c = '\u202f' || c = '\u205f' || c = '\u3000' || c = '\ufeff'

/-- `cs` survives `trim` with something left: JS `s.trim()` is truthy. -/
def trimNonempty (cs : List Char) : Bool :=
  cs.any (fun c => !(isJsWhitespace c))

/-- JS truthiness of an optional string value (`undefined` and `""` are
falsy). -/
def jsTruthy (o : Option String) : Bool :=
  match o with
  | none => false
  | some s => !(s == "")

/-- JS `a || dflt` for an optional string `a` (`undefined` and `""` pick the
default). -/
def jsOrS (o : Option String) (dflt : String) : String :=
  match o with
  | none => dflt
  | some s => if s == "" then dflt else s

/-- ASCII lower-casing, the behavior of `String.prototype.toLowerCase` on
the ASCII code points that occur in the URLs under study. -/
def asciiLowerChar (c : Char) : Char :=
  if 'A' ≤ c && c ≤ 'Z' then Char.ofNat (c.toNat + 32) else c

/-- Lower-case a whole string (character-wise ASCII mapping). -/
def asciiLower (s : String) : String :=
  String.mk (s.toList.map asciiLowerChar)

/-- Does `hay` start with `needle`? -/
def listStartsWith : List Char → List Char → Bool
  | [], _ => true
  | _ :: _, [] => false
  | n :: ns, h :: hs => n = h && listStartsWith ns hs

/-- Does `hay` contain `needle` as a contiguous sublist?  Models JS
`String.prototype.includes`. -/
def listContainsSeg (needle : List Char) : List Char → Bool
  | [] => needle.isEmpty
  | h :: hs => listStartsWith needle (h :: hs) || listContainsSeg needle hs

/-- JS `hay.includes(needle)` on strings. -/
def containsSubstr (hay needle : String) : Bool :=
  listContainsSeg needle.toList hay.toList

/-- Does `hay` end with `needle`? -/
def listEndsWith (hay needle : List Char) : Bool :=
  listStartsWith needle.reverse hay.reverse

/-- Split a character list at the first occurrence of `stop`, returning the
characters before it and the characters after it. -/
def splitAtChar (stop : Char) : List Char → Option (List Char × List Char)
  | [] => none
  | c :: cs =>
    if c = stop then some ([], cs)
    else (splitAtChar stop cs).map (fun p => (c :: p.1, p.2))

/-- An image reference extracted from markdown text: source interface
`ParsedImage { url, alt }` in `imageUrlParser.ts`. -/
structure ParsedImage where
  url : String
  alt : String
  deriving DecidableEq

/-- Result of `parseMarkdownImages`: source interface `ParsedContent`. -/
structure ParsedContent where
  textParts : List String
  imageUrls : List ParsedImage
  deriving DecidableEq

/-- Try to match the regex `!\[([^\]]*)\]\(([^)]+)\)` anchored at the head
of the input.  The greedy negated classes make the match deterministic:
`alt` is everything up to the first `]`, `url` everything up to the first
`)` and must be nonempty.  Returns `(alt, url, rest)` on success. -/
def matchImageAt : List Char → Option (List Char × List Char × List Char)
  | c1 :: c2 :: rest =>
    if c1 = '!' && c2 = '[' then
      match splitAtChar ']' rest with
      | none => none
      | some (alt, r1) =>
        match r1 with
        | c3 :: r2 =>
          if c3 = '(' then
            match splitAtChar ')' r2 with
            | none => none
            | some (url, r3) =>
              if url.isEmpty then none else some (alt, url, r3)
          else none
        | _ => none
    else none
  | _ => none

/-- The `textBefore.trim()` / `remainingText.trim()` guard of
`parseMarkdownImages`: a pending slice becomes a text part only when it is
not blank. -/
def pendingOut (pending : List Char) : List String :=
  if trimNonempty pending then [String.mk pending] else []

/-- Left-to-right scan of `parseMarkdownImages`'s `while (match =
imageRegex.exec(text))` loop.  `pending` holds the characters since
`lastIndex`; the fuel is an upper bound on the remaining input length (the
loop consumes at least one character per iteration), so the fuel-0 branch
is unreachable from `parseMarkdownImages` and is given the same meaning as
the end-of-input branch. -/
def scanImagesAux : Nat → List Char → List Char → List String × List ParsedImage
  | 0, cs, pending => (pendingOut (pending ++ cs), [])
  | _ + 1, [], pending => (pendingOut pending, [])
  | fuel + 1, c :: rest, pending =>
    match matchImageAt (c :: rest) with
    | some (alt, url, rem) =>
      let tail := scanImagesAux fuel rem []
      (pendingOut pending ++ tail.1, ⟨String.mk url, String.mk alt⟩ :: tail.2)
    | none => scanImagesAux fuel rest (pending ++ [c])

/-- Source `parseMarkdownImages` (`imageUrlParser.ts:20`).  Note the
faithful duplication quirk: when no image is found and the text is not
blank, the whole text is pushed a second time (once as `remainingText`,
once by the `imageUrls.length === 0` branch). -/
def parseMarkdownImages (text : String) : ParsedContent :=
  let scanned := scanImagesAux text.toList.length text.toList []
  let tps :=
    if scanned.2.isEmpty && trimNonempty text.toList
    then scanned.1 ++ [text] else scanned.1
  ⟨tps, scanned.2⟩

/-- A parsed URL, the projection of the platform `URL` object used by
`isValidImageUrl` (only the fields the validator reads). -/
structure UrlObj where
  scheme : String
  hostname : String
  pathname : String
  query : String
  deriving DecidableEq

/-- Is `c` allowed as the first character of a URL scheme? -/
def isSchemeStart (c : Char) : Bool := c.isAlpha

/-- Is `c` allowed inside a URL scheme? -/
def isSchemeChar (c : Char) : Bool :=
  c.isAlpha || c.isDigit || c = '+' || c = '-' || c = '.'

/-- Split `auth` (an authority component) into its host-port portion by
dropping a leading `userinfo@` if present (everything up to the last
`@`). -/
def dropUserinfo (auth : List Char) : List Char :=
  ((auth.reverse.takeWhile (fun c => c ≠ '@'))).reverse

/-- Modelled from the platform: the WHATWG `URL` constructor (`new
URL(url)`), which is a browser builtin and not repository code, restricted
to the absolute `scheme://host/path?query` and opaque-path forms exercised
by this repository.  Returns `none` exactly when the constructor would
throw (which `isValidImageUrl` turns into `false`). -/
def parseUrl (url : String) : Option UrlObj :=
  match splitAtChar ':' url.toList with
  | none => none
  | some (schemeCs, rest) =>
    match schemeCs with
    | [] => none
    | c0 :: cs0 =>
      if !(isSchemeStart c0 && cs0.all isSchemeChar) then none
      else
        match rest with
        | '/' :: '/' :: rest2 =>
          let auth := rest2.takeWhile (fun c => c ≠ '/' && c ≠ '?' && c ≠ '#')
          let pathq := rest2.drop auth.length
          let host := (dropUserinfo auth).takeWhile (fun c => c ≠ ':')
          if host.isEmpty then none
          else
            let path := pathq.takeWhile (fun c => c ≠ '?' && c ≠ '#')
            let afterPath := pathq.drop path.length
            let query :=
              match afterPath with
              | '?' :: q => q.takeWhile (fun c => c ≠ '#')
              | _ => []
            some ⟨String.mk (List.map asciiLowerChar (c0 :: cs0)),
                  String.mk (List.map asciiLowerChar host),
                  String.mk path, String.mk query⟩
        | _ =>
          -- opaque path (non-special scheme such as `mailto:`); no host
          let path := rest.takeWhile (fun c => c ≠ '?' && c ≠ '#')
          let afterPath := rest.drop path.length
          let query :=
            match afterPath with
            | '?' :: q => q.takeWhile (fun c => c ≠ '#')
            | _ => []
          some ⟨String.mk (List.map asciiLowerChar (c0 :: cs0)), "",
                String.mk path, String.mk query⟩

/-- The recognized image file extensions of `isValidImageUrl`'s regex
`\.(jpg|jpeg|png|gif|webp|svg)(\?.*)?$` (already lower-cased; the regex has
the `i` flag). -/
def imageExtensions : List (List Char) :=
  [['j','p','g'], ['j','p','e','g'], ['p','n','g'],
   ['g','i','f'], ['w','e','b','p'], ['s','v','g']]

/-- Line terminators, which the regex metacharacter `.` does not match. -/
def isLineTerm (c : Char) : Bool :=
  c = '\n' || c = '\r' || c = '\u2028' || c = '\u2029'

/-- The `(\?.*)?$` tail of the extension regex: after the extension the
input must end, or continue with `?` followed by characters `.` can match
up to the end. -/
def extTailOk (tail : List Char) : Bool :=
  match tail with
  | [] => true
  | '?' :: q => q.all (fun c => !(isLineTerm c))
  | _ => false

/-- Does the extension pattern match starting exactly at `cs` (which must
begin with a literal dot)?  `cs` is assumed lower-cased. -/
def extMatchHere (cs : List Char) : Bool :=
  match cs with
  | '.' :: rest =>
    imageExtensions.any (fun ext =>
      listStartsWith ext rest && extTailOk (rest.drop ext.length))
  | _ => false

/-- Search for the extension pattern anywhere in `cs` (regex `test` with no
anchor at the start). -/
def extSearch : List Char → Bool
  | [] => false
  | c :: rest => extMatchHere (c :: rest) || extSearch rest

/-- `validImageExtensions.test(url)`: the case-insensitive extension regex
applied to the whole URL string, as the source does. -/
def extMatch (url : String) : Bool :=
  extSearch (url.toList.map asciiLowerChar)

/-- The known image CDN hostnames hard-coded in `isValidImageUrl`. -/
def knownImageDomains : List String :=
  ["googlecdn.datas.systems", "cdn.google.com",
   "storage.googleapis.com", "lh3.googleusercontent.com"]

/-- Source `isValidImageUrl` (`imageUrlParser.ts:66`): `new URL` in a
`try` (failure ⇒ `false`), then the extension regex over the whole URL,
then `url.toLowerCase().includes('image')` over the whole URL, then a
substring test of the hostname against the domain allowlist. -/
def isValidImageUrl (url : String) : Bool :=
  match parseUrl url with
  | none => false
  | some urlObj =>
    if extMatch url then true
    else if containsSubstr (asciiLower url) "image" then true
    else knownImageDomains.any (fun d => containsSubstr urlObj.hostname d)

/-- Source `containsCdnImages` (`imageUrlParser.ts:214`). -/
def containsCdnImages (text : String) : Bool :=
  (parseMarkdownImages text).imageUrls.any (fun img => isValidImageUrl img.url)

/-- The abstract outcome of one HTTP GET issued by `downloadImageAsBase64`,
standing for the behavior of the platform `fetch` plus the body/base64
conversion: the request times out (the abort controller fires), the
response arrives with a non-2xx status, the transport fails in some other
way, or the response succeeds with a declared content type (possibly
absent) and a body (already in its base64 form, as produced by
`blobToBase64`). -/
inductive FetchOutcome where
  | timeout
  | httpNotOk (status : Nat) (statusText : String)
  | transportError (msg : String)
  | success (contentType : Option String) (base64Body : String)
  deriving DecidableEq

/-- The discriminated failures of the bounded image fetcher: the rejected
promise of `downloadImageAsBase64` carries exactly one of these errors. -/
inductive FetchFailure where
  | timeout (msg : String)
  | httpError (status : Nat) (msg : String)
  | networkError (msg : String)
  deriving DecidableEq

/-- The success payload of `downloadImageAsBase64`. -/
structure DownloadedImage where
  mimeType : String
  base64Data : String
  deriving DecidableEq

/-- Source `downloadImageAsBase64` (`imageUrlParser.ts:123`), with the
network abstracted by the outcome `o` of the single GET it performs.  The
`try`/`catch` translates as: an abort (timeout) rejects with the timeout
error; a non-ok response throws `HTTP <status>: <statusText>` which the
catch re-throws unchanged (the signal is not aborted); any other transport
error is re-thrown unchanged; on success the declared content type is
taken, defaulting to `image/png` when absent (or empty, which is falsy),
and the body is paired with it. -/
def downloadImageAsBase64 (o : FetchOutcome) :
    Except FetchFailure DownloadedImage :=
  match o with
  | .timeout => .error (.timeout "图片下载超时")
  | .httpNotOk status statusText =>
      .error (.httpError status ("HTTP " ++ toString status ++ ": " ++ statusText))
  | .transportError msg => .error (.networkError msg)
  | .success contentType base64Body =>
      .ok ⟨jsOrS contentType "image/png", base64Body⟩

/-- One element of `batchDownloadImages`' result array. -/
structure BatchResult where
  url : String
  mimeType : String
  base64Data : String
  deriving DecidableEq

/-- The per-index body of `batchDownloadImages`' `processBatch` loop:
re-validate the URL (skip with `null` on rejection), then fetch; the
`catch` maps any fetch failure to `null`. -/
def batchResultAt (outcomeOf : String → FetchOutcome) (u : String) :
    Option BatchResult :=
  if isValidImageUrl u then
    match downloadImageAsBase64 (outcomeOf u) with
    | .ok d => some ⟨u, d.mimeType, d.base64Data⟩
    | .error _ => none
  else none

/-- Source `batchDownloadImages` (`imageUrlParser.ts:174`), final value of
its `results` array.  The array is pre-filled with `null` and each chunk
task writes each of its own indices exactly once with the value
`batchResultAt`, so the completed array is the index-wise map below,
independent of how the chunk tasks interleave. -/
def batchDownloadImages (outcomeOf : String → FetchOutcome)
    (urls : List String) : List (Option BatchResult) :=
  urls.map (batchResultAt outcomeOf)

/-- The chunking of `batchDownloadImages`' scheduling loop `for (let i = 0;
i < urls.length; i += concurrency) batches.push(processBatch(i))`: chunk
`k` covers indices `[k*c, min((k+1)*c, n))`.  The fuel bounds the number of
loop iterations (for `concurrency ≥ 1` one chunk consumes at least one
URL, so `urls.length` iterations suffice; the source loop would not
terminate for `concurrency = 0`, which never occurs — the call sites pass
3). -/
def batchChunksAux : Nat → List String → Nat → List (List String)
  | 0, _, _ => []
  | _ + 1, [], _ => []
  | fuel + 1, u :: rest, c =>
    (u :: rest).take c :: batchChunksAux fuel ((u :: rest).drop c) c

/-- The list of chunks of `batchDownloadImages` for a given URL list and
concurrency parameter. -/
def batchChunks (urls : List String) (concurrency : Nat) : List (List String) :=
  batchChunksAux urls.length urls concurrency

/-- How many fetches are in flight immediately after `batchDownloadImages`
has started all its chunk tasks: every task is started synchronously
(`batches.push(processBatch(i))`) and runs to its first `await`, which is
the fetch of the first valid URL in its chunk; a task whose chunk has no
valid URL completes without fetching.  So every chunk containing at least
one valid URL has one fetch in flight before any of them completes. -/
def simultaneousFetches (urls : List String) (concurrency : Nat) : Nat :=
  ((batchChunks urls concurrency).filter
    (fun chunk => chunk.any isValidImageUrl)).length

/-- The binary payload of a content part (`inlineData`). -/
structure InlineData where
  mimeType : String
  data : String
  deriving DecidableEq

/-- A content part, source interface `ContentPart { text?, inlineData?, thought?,
thoughtSignature? }`.  The `thought` flag is stored normalized (the source
always writes it through `!!`). -/
structure ContentPart where
  text : Option String
  inlineData : Option InlineData
  thought : Bool
  thoughtSignature : Option String
  deriving DecidableEq

/-- A provider stream fragment (SDK part) after boundary normalization:
either a text delta or an inline binary payload, each carrying the raw
`thought` flag (already coerced with `!!`) and a possibly missing
signature. -/
inductive Fragment where
  | text (s : String) (thought : Bool) (sig : Option String)
  | inline (mimeType : Option String) (data : Option String)
      (thought : Bool) (sig : Option String)
  deriving DecidableEq

/-- A new text part as the source builds it: `{ text, thought,
...(signature && { thoughtSignature: signature }) }` — the signature field
is set only when the incoming signature is truthy. -/
def mkTextPart (s : String) (thought : Bool) (sig : Option String) : ContentPart :=
  ⟨some s, none, thought, if jsTruthy sig then sig else none⟩

/-- A new binary part as built from an SDK inline-data fragment:
`mimeType: part.inlineData.mimeType || 'image/png'`, `data:
part.inlineData.data || ''`, signature only when truthy. -/
def mkInlinePart (mimeType data : Option String) (thought : Bool)
    (sig : Option String) : ContentPart :=
  ⟨none, some ⟨jsOrS mimeType "image/png", jsOrS data ""⟩, thought,
   if jsTruthy sig then sig else none⟩

/-- A new binary part as built by `processTextWithCdnImages` from a batch
download result (no defaulting there: the mime type and data are used as
they come). -/
def mkInlinePartRaw (mimeType data : String) (thought : Bool)
    (sig : Option String) : ContentPart :=
  ⟨none, some ⟨mimeType, data⟩, thought, if jsTruthy sig then sig else none⟩

/-- The text-fragment merge step shared verbatim by the server driver
(`part_008` lines 128-146) and the streaming driver's regular branch
(`part_002` lines 548-567): if the last part exists, has a (possibly
empty) `text` field and the same thought flag, append the fragment text to
it and overwrite its signature when the fragment's one is truthy;
otherwise push a new text part. -/
def mergeTextPart (parts : List ContentPart) (s : String) (isThought : Bool)
    (sig : Option String) : List ContentPart :=
  match parts.getLast? with
  | some lastPart =>
    if lastPart.text.isSome && (lastPart.thought == isThought) then
      parts.dropLast ++
        [{ lastPart with
            text := some (lastPart.text.getD "" ++ s),
            thoughtSignature :=
              if jsTruthy sig then sig else lastPart.thoughtSignature }]
    else parts ++ [mkTextPart s isThought sig]
  | none => parts ++ [mkTextPart s isThought sig]

/-- The part merger of the server streaming driver (`part_008` lines
124-157): text fragments coalesce via `mergeTextPart`, inline-data
fragments always push a new part. -/
def mergePart (parts : List ContentPart) (frag : Fragment) : List ContentPart :=
  match frag with
  | .text s isThought sig => mergeTextPart parts s isThought sig
  | .inline mimeType data isThought sig =>
      parts ++ [mkInlinePart mimeType data isThought sig]

/-- The literal markup rebuilt by `processTextWithCdnImages` for a failed
download: `` `![${imageUrls[index].alt || 'image'}](${imageUrls[index].url})` ``
— note the `'image'` default substituted for a falsy (empty) alt. -/
def fallbackMarkdown (img : ParsedImage) : String :=
  "![" ++ (if img.alt = "" then "image" else img.alt) ++ "](" ++ img.url ++ ")"

/-- The failed-download branch of `processTextWithCdnImages` (`part_002`
lines 312-325): append the rebuilt markup to the last part if it has
truthy text (inserting a space unless that text already ends with one),
otherwise push a new text part holding the markup. -/
def cdnFailureFallback (parts : List ContentPart) (img : ParsedImage)
    (isThought : Bool) (sig : Option String) : List ContentPart :=
  let originalMarkdown := fallbackMarkdown img
  match parts.getLast? with
  | some lastPart =>
    if jsTruthy lastPart.text then
      let t := lastPart.text.getD ""
      parts.dropLast ++
        [{ lastPart with
            text := some (t ++ (if t.toList.getLast? = some ' ' then "" else " ")
                      ++ originalMarkdown) }]
    else parts ++ [mkTextPart originalMarkdown isThought sig]
  | none => parts ++ [mkTextPart originalMarkdown isThought sig]

/-- One step of the `imageResults.forEach` loop of
`processTextWithCdnImages`: a successful download pushes a binary part, a
`null` result runs the fallback. -/
def cdnImageStep (isThought : Bool) (sig : Option String) (parts : List ContentPart) :
    Option BatchResult × ParsedImage → List ContentPart
  | (some r, _) => parts ++ [mkInlinePartRaw r.mimeType r.base64Data isThought sig]
  | (none, img) => cdnFailureFallback parts img isThought sig

/-- Source `processTextWithCdnImages` (`part_002` lines 272-339): parse the
text, push one text part per non-blank segment, then batch-download the
references and fold the results over the part list in order.  The
source-level `try`/`catch` is unreachable here because the parser and the
batch call are total (the batch never rejects: every per-URL failure is
caught inside its chunk task). -/
def processTextWithCdnImages (outcomeOf : String → FetchOutcome)
    (text : String) (isThought : Bool) (sig : Option String) : List ContentPart :=
  let pc := parseMarkdownImages text
  let parts0 := pc.textParts.foldl
    (fun acc tp =>
      if trimNonempty tp.toList then acc ++ [mkTextPart tp isThought sig]
      else acc) []
  if pc.imageUrls.isEmpty then parts0
  else
    let results := batchDownloadImages outcomeOf (pc.imageUrls.map (fun i => i.url))
    (results.zip pc.imageUrls).foldl (cdnImageStep isThought sig) parts0

/-- The mutable state of one run of the streaming assembler
`streamGeminiResponse` (`part_002` lines 472-475). -/
structure StreamState where
  currentParts : List ContentPart
  pendingTextBuffer : String
  lastThoughtState : Bool
  lastSignature : Option String
  deriving DecidableEq

/-- The initial state of a streaming run. -/
def initStreamState : StreamState := ⟨[], "", false, none⟩

/-- The backward scan of the resolution splice (`part_002` lines 509-512):
the index of the most recent part whose `text` field is present, if any. -/
def findLastTextIndexAux : List ContentPart → Nat → Option Nat
  | [], _ => none
  | p :: rest, i =>
    match findLastTextIndexAux rest (i + 1) with
    | some j => some j
    | none => if p.text.isSome then some i else none

/-- Index of the last text part of the list, if any. -/
def findLastTextIndex (parts : List ContentPart) : Option Nat :=
  findLastTextIndexAux parts 0

/-- The splice of a finished resolution pass (`part_002` lines 507-522):
remove the most recent text part (wherever it is) and append the processed
parts at the end; if there is no text part, just append. -/
def spliceProcessed (parts processed : List ContentPart) : List ContentPart :=
  match findLastTextIndex parts with
  | some i => parts.eraseIdx i ++ processed
  | none => parts ++ processed

/-- One fragment step of the streaming assembler (`part_002` lines
487-591), parameterized by the CDN-processing switch and the fetch oracle.
A text fragment is first accumulated into the pending buffer, and the
thought state and signature trackers are overwritten (lines 493-495); if
CDN processing is on and the buffer now contains a downloadable image
reference, the buffer is processed and spliced in and the buffer cleared,
otherwise the fragment text is merged normally (the buffer keeps
accumulating).  An inline-data fragment first flushes a non-blank pending
buffer as a text part, then pushes the binary part.  The source `catch`
around the resolution pass is unreachable because the pass is total. -/
def streamStep (enableCdn : Bool) (outcomeOf : String → FetchOutcome)
    (st : StreamState) (frag : Fragment) : StreamState :=
  match frag with
  | .text s isThought sig =>
    let buf := st.pendingTextBuffer ++ s
    if enableCdn && containsCdnImages buf then
      let processed := processTextWithCdnImages outcomeOf buf isThought sig
      ⟨spliceProcessed st.currentParts processed, "", isThought, sig⟩
    else
      ⟨mergeTextPart st.currentParts s isThought sig, buf, isThought, sig⟩
  | .inline mimeType data isThought sig =>
    let flushed :=
      if trimNonempty st.pendingTextBuffer.toList then
        (st.currentParts ++
          [mkTextPart st.pendingTextBuffer st.lastThoughtState st.lastSignature],
         "")
      else (st.currentParts, st.pendingTextBuffer)
    ⟨flushed.1 ++ [mkInlinePart mimeType data isThought sig], flushed.2,
     st.lastThoughtState, st.lastSignature⟩

/-- The end-of-stream handling (`part_002` lines 599-606): a non-blank
pending buffer is pushed as one more text part after the loop (and after
the last yield). -/
def finalizeStream (st : StreamState) : List ContentPart :=
  if trimNonempty st.pendingTextBuffer.toList then
    st.currentParts ++
      [mkTextPart st.pendingTextBuffer st.lastThoughtState st.lastSignature]
  else st.currentParts

/-- The final part list produced by one streaming run over a fragment
sequence (one fragment per provider chunk). -/
def runStream (enableCdn : Bool) (outcomeOf : String → FetchOutcome)
    (frags : List Fragment) : List ContentPart :=
  finalizeStream (frags.foldl (streamStep enableCdn outcomeOf) initStreamState)

/-- The part-list snapshots yielded after each fragment (`part_002` lines
593-596), starting from a given state. -/
def streamSnapshotsFrom (enableCdn : Bool) (outcomeOf : String → FetchOutcome)
    (st : StreamState) : List Fragment → List (List ContentPart)
  | [] => []
  | f :: fs =>
    let st' := streamStep enableCdn outcomeOf st f
    st'.currentParts :: streamSnapshotsFrom enableCdn outcomeOf st' fs

/-- All snapshots of a streaming run. -/
def streamSnapshots (enableCdn : Bool) (outcomeOf : String → FetchOutcome)
    (frags : List Fragment) : List (List ContentPart) :=
  streamSnapshotsFrom enableCdn outcomeOf initStreamState frags

/-- The characters of the text content of a part list, in part order. -/
def textChars (parts : List ContentPart) : List Char :=
  parts.foldr (fun p acc => (p.text.getD "").toList ++ acc) []

/-- Concatenated text content of a part list, in part order. -/
def partsText (parts : List ContentPart) : String :=
  String.mk (textChars parts)

/-- Concatenated text of a fragment sequence, in arrival order. -/
def fragsText (frags : List Fragment) : String :=
  frags.foldl
    (fun acc f => match f with | .text s _ _ => acc ++ s | _ => acc) ""

/-! ### Supporting lemmas -/

theorem trimNonempty_of_all_ws {cs : List Char}
    (h : ∀ c ∈ cs, isJsWhitespace c = true) : trimNonempty cs = false := by
  unfold trimNonempty
  simp only [List.any_eq_false]
  intro c hc
  simp [h c hc]

theorem pendingOut_of_all_ws {cs : List Char}
    (h : ∀ c ∈ cs, isJsWhitespace c = true) : pendingOut cs = [] := by
  unfold pendingOut
  rw [trimNonempty_of_all_ws h]
  rfl

theorem matchImageAt_of_all_ws {cs : List Char}
    (h : ∀ c ∈ cs, isJsWhitespace c = true) : matchImageAt cs = none := by
  match cs with
  | [] => rfl
  | [c] => rfl
  | c1 :: c2 :: rest =>
    have h1 : isJsWhitespace c1 = true := h c1 (by simp)
    have hne : (c1 = '!' && c2 = '[') = false := by
      by_cases hc : c1 = '!'
      · subst hc; simp [isJsWhitespace] at h1
      · simp [hc]
    unfold matchImageAt
    simp only [hne]
    rfl

theorem scanImagesAux_of_all_ws (fuel : Nat) :
    ∀ (cs pending : List Char),
      (∀ c ∈ cs, isJsWhitespace c = true) →
      (∀ c ∈ pending, isJsWhitespace c = true) →
      scanImagesAux fuel cs pending = ([], []) := by
  induction fuel with
  | zero =>
    intro cs pending hcs hp
    unfold scanImagesAux
    rw [pendingOut_of_all_ws]
    intro c hc
    rcases List.mem_append.mp hc with h | h
    · exact hp c h
    · exact hcs c h
  | succ fuel ih =>
    intro cs pending hcs hp
    match cs with
    | [] =>
      unfold scanImagesAux
      rw [pendingOut_of_all_ws hp]
    | c :: rest =>
      unfold scanImagesAux
      rw [matchImageAt_of_all_ws hcs]
      exact ih rest (pending ++ [c])
        (fun x hx => hcs x (List.mem_cons_of_mem c hx))
        (fun x hx => by
          rcases List.mem_append.mp hx with h | h
          · exact hp x h
          · simp at h; subst h; exact hcs x (by simp))

/-! ### Claim C10 -/

/-- C10: for every input string that is empty or consists only of
whitespace, `parseMarkdownImages` returns both arrays empty — the
"non-blank text becomes one segment" rule does not apply.  (The function
is a total Lean function, so it cannot throw for any string input.) -/
theorem parseMarkdownImages_blank (s : String)
    (h : ∀ c ∈ s.toList, isJsWhitespace c = true) :
    parseMarkdownImages s = ⟨[], []⟩ := by
  unfold parseMarkdownImages
  rw [scanImagesAux_of_all_ws s.toList.length s.toList [] h (by simp)]
  simp only [List.isEmpty_nil, Bool.true_and]
  rw [trimNonempty_of_all_ws h]
  rfl

/-- Witness for C10 at the concrete whitespace-only input `"  \n "`. -/
theorem parseMarkdownImages_blank_witness :
    parseMarkdownImages "  \n " = ⟨[], []⟩ :=
  parseMarkdownImages_blank "  \n " (by decide)

/-! ### Claim C4 -/

/-- C4: the part merger follows the spec's rules: a text fragment whose
thought flag matches a trailing text part is appended to it (in
particular two consecutive `isThought = true` text fragments yield exactly
one merged part), with the signature overwritten only when the fragment
carries a (truthy) one; otherwise a text fragment pushes a new text part;
a binary fragment always pushes a new part and never coalesces. -/
theorem mergePart_rules (init parts : List ContentPart) (lp : ContentPart)
    (s s1 s2 : String) (th : Bool) (sig g1 g2 mimeType data : Option String) :
    (lp.text.isSome = true → lp.thought = th →
      mergePart (init ++ [lp]) (.text s th sig) =
        init ++ [{ lp with
            text := some (lp.text.getD "" ++ s),
            thoughtSignature :=
              if jsTruthy sig then sig else lp.thoughtSignature }]) ∧
    ((lp.text = none ∨ ¬ lp.thought = th) →
      mergePart (init ++ [lp]) (.text s th sig) =
        (init ++ [lp]) ++ [mkTextPart s th sig]) ∧
    (mergePart [] (.text s th sig) = [mkTextPart s th sig]) ∧
    (mergePart parts (.inline mimeType data th sig) =
      parts ++ [mkInlinePart mimeType data th sig]) ∧
    ((mergePart (mergePart [] (.text s1 true g1)) (.text s2 true g2)).length
      = 1) := by
  refine ⟨?_, ?_, ?_, ?_, ?_⟩
  · intro h1 h2
    unfold mergePart mergeTextPart
    rw [List.getLast?_concat]
    simp only [h1, h2, beq_self_eq_true, Bool.and_self, if_true,
      List.dropLast_concat]
  · intro hor
    unfold mergePart mergeTextPart
    rw [List.getLast?_concat]
    have hcond : (lp.text.isSome && (lp.thought == th)) = false := by
      rcases hor with h | h
      · simp [h]
      · simp [h]
    simp only [hcond, Bool.false_eq_true, if_false]
  · rfl
  · rfl
  · simp [mergePart, mergeTextPart, mkTextPart]

/-- Witness for C4: concrete coalescing of a same-thought text fragment
(with signature overwrite) and a concrete non-coalescing push after a
binary tail. -/
theorem mergePart_rules_witness :
    mergePart [⟨some "a", none, true, some "g0"⟩]
        (Fragment.text " world" true (some "g1")) =
      [⟨some "a world", none, true, some "g1"⟩] ∧
    mergePart [⟨none, some ⟨"image/png", "QQ"⟩, false, none⟩]
        (Fragment.text "x" false none) =
      [⟨none, some ⟨"image/png", "QQ"⟩, false, none⟩,
       mkTextPart "x" false none] := by
  constructor
  · have h := (mergePart_rules [] [] ⟨some "a", none, true, some "g0"⟩
      " world" "" "" true (some "g1") none none none none).1 rfl rfl
    rw [List.nil_append] at h
    rw [h]
    decide
  · have h := (mergePart_rules [] [] ⟨none, some ⟨"image/png", "QQ"⟩, false, none⟩
      "x" "" "" false none none none none none).2.1 (Or.inl rfl)
    rw [List.nil_append] at h
    exact h

/-! ### Claim C6 -/

/-- An oracle under which every fetch fails with a transport error. -/
def failOutcome : String → FetchOutcome := fun _ => .transportError "network down"

/-- An oracle under which exactly `http://cdn.img/b.png` fails and every
other fetch succeeds as a PNG with body `D1`. -/
def midFailOutcome : String → FetchOutcome := fun u =>
  if u = "http://cdn.img/b.png" then .transportError "e"
  else .success (some "image/png") "D1"

/-- Three fetchable image URLs, the middle one destined to fail. -/
def demoUrls3 : List String :=
  ["http://cdn.img/a.png", "http://cdn.img/b.png", "http://cdn.img/c.png"]

/-- C6: the batch result is positionally aligned with its input: it has
the input's length, entry `i` is computed from `urls[i]` alone, it is
`null` exactly when the validator rejects `urls[i]` or its fetch fails,
and otherwise it is a success record for `urls[i]`.  (The batch function
is total: it never fails or throws.) -/
theorem batchDownloadImages_aligned (outcomeOf : String → FetchOutcome)
    (urls : List String) (i : Nat) (h : i < urls.length) :
    (batchDownloadImages outcomeOf urls).length = urls.length ∧
    (batchDownloadImages outcomeOf urls).get
        ⟨i, by simpa [batchDownloadImages] using h⟩ =
      batchResultAt outcomeOf (urls.get ⟨i, h⟩) ∧
    (batchResultAt outcomeOf (urls.get ⟨i, h⟩) = none ↔
      (isValidImageUrl (urls.get ⟨i, h⟩) = false ∨
        ∃ e, downloadImageAsBase64 (outcomeOf (urls.get ⟨i, h⟩)) =
          .error e)) ∧
    (∀ r, batchResultAt outcomeOf (urls.get ⟨i, h⟩) = some r →
      isValidImageUrl (urls.get ⟨i, h⟩) = true ∧
      downloadImageAsBase64 (outcomeOf (urls.get ⟨i, h⟩)) =
        .ok ⟨r.mimeType, r.base64Data⟩ ∧
      r.url = urls.get ⟨i, h⟩) := by
  refine ⟨by simp [batchDownloadImages], by simp [batchDownloadImages], ?_, ?_⟩
  · unfold batchResultAt
    rcases hv : isValidImageUrl (urls.get ⟨i, h⟩) with _ | _
    · simp
    · simp only [if_true]
      rcases hd : downloadImageAsBase64 (outcomeOf (urls.get ⟨i, h⟩)) with e | d
      · simp [hd]
      · simp [hd]
  · intro r hr
    unfold batchResultAt at hr
    rcases hv : isValidImageUrl (urls.get ⟨i, h⟩) with _ | _
    · rw [hv] at hr; simp at hr
    · rw [hv] at hr
      simp only [if_true] at hr
      rcases hd : downloadImageAsBase64 (outcomeOf (urls.get ⟨i, h⟩)) with e | d
      · rw [hd] at hr; simp at hr
      · rw [hd] at hr
        simp only [Option.some.injEq] at hr
        subst hr
        exact ⟨rfl, rfl, rfl⟩

/-- Witness for C6: on `["a.png","b.png","c.png"]` with only the middle
fetch failing, the batch keeps length 3 and has `null` strictly at
index 1. -/
theorem batchDownloadImages_aligned_witness :
    (batchDownloadImages midFailOutcome demoUrls3).length = 3 ∧
    batchResultAt midFailOutcome "http://cdn.img/b.png" = none := by
  have h := batchDownloadImages_aligned midFailOutcome demoUrls3 1 (by decide)
  refine ⟨?_, ?_⟩
  · rw [h.1]; rfl
  · exact (h.2.2.1).mpr (Or.inr ⟨FetchFailure.networkError "e", rfl⟩)

/-! ### Claim C7 -/

/-- C7: the bounded image fetcher always returns a discriminated result
(it is a total function into `Except`, so nothing escapes its boundary):
a timeout yields the timeout error, a non-2xx response yields an HTTP
error carrying the status, any other transport error yields a network
error, and a success pairs the body with the declared content type,
defaulting to `image/png` when the header is absent. -/
theorem downloadImageAsBase64_discriminated (status : Nat)
    (statusText msg body ct : String) :
    downloadImageAsBase64 .timeout = .error (.timeout "图片下载超时") ∧
    downloadImageAsBase64 (.httpNotOk status statusText) =
      .error (.httpError status
        ("HTTP " ++ toString status ++ ": " ++ statusText)) ∧
    downloadImageAsBase64 (.transportError msg) =
      .error (.networkError msg) ∧
    downloadImageAsBase64 (.success none body) = .ok ⟨"image/png", body⟩ ∧
    (¬ ct = "" →
      downloadImageAsBase64 (.success (some ct) body) = .ok ⟨ct, body⟩) := by
  refine ⟨rfl, rfl, rfl, rfl, fun hct => ?_⟩
  unfold downloadImageAsBase64 jsOrS
  simp [hct]

/-- Witness for C7 at a concrete declared content type. -/
theorem downloadImageAsBase64_discriminated_witness :
    downloadImageAsBase64 (.success (some "image/jpeg") "B") =
      .ok ⟨"image/jpeg", "B"⟩ :=
  (downloadImageAsBase64_discriminated 0 "" "" "B" "image/jpeg").2.2.2.2
    (by decide)

/-! ### Claim C8 -/

/-- The validator policy exactly as the spec words it (for comparison with
the source `isValidImageUrl`): first match wins — (a) reject unless the
string parses as an absolute URL, (b) accept if the *path* has a
recognized image extension, (c) accept if the *path or query* (and only
they) contains `"image"` case-insensitively, (d) accept if the host
matches the allowlist, otherwise reject. -/
def isFetchableSpecPolicy (url : String) : Bool :=
  match parseUrl url with
  | none => false
  | some u =>
    if imageExtensions.any (fun ext =>
        listEndsWith (u.pathname.toList.map asciiLowerChar) ('.' :: ext))
      then true
    else if containsSubstr (asciiLower u.pathname) "image" ||
        containsSubstr (asciiLower u.query) "image" then true
    else knownImageDomains.any (fun d => containsSubstr u.hostname d)

/-- Counterexample to C8: the source checks `includes('image')` on the
*whole* URL string, so a URL whose *hostname* contains `image` is
accepted, while the spec's policy (path/query only, host not in the
allowlist) rejects it. -/
theorem isValidImageUrl_ne_spec_policy :
    isValidImageUrl "https://image.example.com/page.html" = true ∧
    isFetchableSpecPolicy "https://image.example.com/page.html" = false := by
  decide

/-- The validator policy as amended to match the source: the extension
regex and the `image` keyword test run over the whole URL string (scheme,
host, path and query alike), and the allowlist test is a substring test on
the hostname. -/
def isFetchableAmended (url : String) : Bool :=
  match parseUrl url with
  | none => false
  | some u =>
    if extMatch url then true
    else if containsSubstr (asciiLower url) "image" then true
    else if knownImageDomains.any (fun d => containsSubstr u.hostname d)
      then true
    else false

/-- C8 as amended: `isValidImageUrl` implements first-match-wins over (a)
absolute-URL parsing, (b) the extension pattern over the whole URL string,
(c) the substring `image` anywhere in the lower-cased URL (host included),
(d) a hostname-substring allowlist test. -/
theorem isValidImageUrl_amended_policy (url : String) :
    isValidImageUrl url = isFetchableAmended url := by
  unfold isValidImageUrl isFetchableAmended
  rcases parseUrl url with _ | u
  · rfl
  · cases h1 : extMatch url <;>
      cases h2 : containsSubstr (asciiLower url) "image" <;>
        cases h3 : knownImageDomains.any
            (fun d => containsSubstr u.hostname d) <;>
          simp [h1, h2, h3]

/-! ### Claim C1 -/

/-- The single-text-fragment input on which the streaming assembler
duplicates its text. -/
def demoFragsC1 : List Fragment := [.text "hi" false none]

/-- C1 fails on the code: a text fragment is merged into the part list by
the regular branch *and* kept in the pending buffer, and the end-of-stream
flush appends the buffer again, so the single fragment `"hi"` comes out as
`"hihi"` — the final text is not the arrival-order concatenation (no image
was resolved, so nothing may be ignored). -/
theorem stream_flush_duplicates_text :
    partsText (runStream true failOutcome demoFragsC1) = "hihi" ∧
    fragsText demoFragsC1 = "hi" ∧
    ("hihi" : String) ≠ "hi" := by
  decide

/-! ### Claim C2 -/

/-- The oracle of the spec's scenario: fetching `http://cdn.img/a.png`
succeeds with mime `image/png` and data `D1`; everything else fails. -/
def scenarioOutcome : String → FetchOutcome := fun u =>
  if u = "http://cdn.img/a.png" then .success (some "image/png") "D1"
  else .transportError "e"

/-- The spec scenario's fragment sequence. -/
def fragsC2 : List Fragment :=
  [.text "Look " false none,
   .text "![x](http://cdn.img/a.png) done" false none]

/-- Counterexample to C2: the resolution pass does not interleave — the
final parts are not `[{text:"Look "}, image, {text:" done"}]` with the
image between the two text parts. -/
theorem stream_scenario_not_interleaved :
    runStream true scenarioOutcome fragsC2 ≠
      [mkTextPart "Look " false none,
       mkInlinePartRaw "image/png" "D1" false none,
       mkTextPart " done" false none] := by
  decide

/-- C2 as amended: the resolution pass removes the most recent text part
and appends the processed parts at the end of the list — one text part per
plain-text segment in original order, followed by one binary part per
successfully resolved reference in original order; for the scenario input
the final parts are `[{text:"Look "}, {text:" done"},
{inlineData:{image/png, D1}}]`, the image after both text parts. -/
theorem stream_scenario_amended :
    runStream true scenarioOutcome fragsC2 =
      [mkTextPart "Look " false none,
       mkTextPart " done" false none,
       mkInlinePartRaw "image/png" "D1" false none] := by
  decide

/-! ### Claim C5 -/

/-- Twelve fetchable image URLs. -/
def urls12 : List String :=
  ["http://cdn.img/p1.png", "http://cdn.img/p2.png", "http://cdn.img/p3.png",
   "http://cdn.img/p4.png", "http://cdn.img/p5.png", "http://cdn.img/p6.png",
   "http://cdn.img/p7.png", "http://cdn.img/p8.png", "http://cdn.img/p9.png",
   "http://cdn.img/p10.png", "http://cdn.img/p11.png", "http://cdn.img/p12.png"]

/-- C5 fails on the code: the scheduling loop of `batchDownloadImages`
starts *every* chunk task at once (`Promise.all` over `ceil(n/c)` chunked
tasks, each sequential inside), it does not await one wave before the
next; with 12 valid URLs and concurrency 2 all 6 chunks have a fetch in
flight simultaneously, exceeding the claimed bound of 2. -/
theorem batch_concurrency_exceeded :
    (batchChunks urls12 2).length = 6 ∧
    simultaneousFetches urls12 2 = 6 ∧ 2 < 6 := by
  decide

/-! ### Claim C9 -/

/-- A fragment sequence that puts two binary parts around a text part and
then fires a resolution pass: the backward scan of the splice then removes
a text part that is *not* the tail. -/
def fragsC9 : List Fragment :=
  [.inline (some "image/png") (some "AA") false none,
   .text "hi" false none,
   .inline (some "image/png") (some "BB") false none,
   .text "![x](http://cdn.img/a.png)" false none]

/-- The third snapshot yielded on `fragsC9` (after the second binary
fragment; it also shows the buffer-flush duplication of `"hi"`). -/
def snapC9before : List ContentPart :=
  [mkInlinePart (some "image/png") (some "AA") false none,
   mkTextPart "hi" false none,
   mkTextPart "hi" false none,
   mkInlinePart (some "image/png") (some "BB") false none]

/-- The fourth snapshot yielded on `fragsC9`: the splice removed the text
part at index 2 even though the tail was the binary part at index 3. -/
def snapC9after : List ContentPart :=
  [mkInlinePart (some "image/png") (some "AA") false none,
   mkTextPart "hi" false none,
   mkInlinePart (some "image/png") (some "BB") false none,
   mkInlinePartRaw "image/png" "D1" false none]

/-- Counterexample to C9: between the third and fourth yielded snapshots
the part at index 2 — a non-tail position of the third snapshot, whose
tail is index 3 — is removed by the resolution splice, so a previously
emitted part other than the tail does not stay unchanged. -/
theorem stream_splice_removes_non_tail :
    (streamSnapshots true scenarioOutcome fragsC9).get? 2 = some snapC9before ∧
    (streamSnapshots true scenarioOutcome fragsC9).get? 3 = some snapC9after ∧
    snapC9before.get? 2 ≠ snapC9after.get? 2 ∧
    2 + 1 < snapC9before.length := by
  decide

/-- The shapes in which one assembler step may rewrite the already-yielded
part list: replace the tail part in place, append at the end, or erase the
most recent text part (at whatever index the backward scan finds it) and
append the processed parts at the end. -/
def StepShape (old new : List ContentPart) : Prop :=
  (∃ init lp lp', old = init ++ [lp] ∧ new = init ++ [lp']) ∨
  (∃ app, new = old ++ app) ∨
  (∃ i app, findLastTextIndex old = some i ∧ new = old.eraseIdx i ++ app)

/-- C9 as amended: within a run, each step of the assembler mutates the
previously yielded list only by replacing the tail part, appending parts
at the end, or — during a resolution splice — erasing the most recent
text part (which may be non-tail) and appending the processed parts; the
end-of-stream handling (which runs after the final yield) only appends. -/
theorem streamStep_frame (enableCdn : Bool) (outcomeOf : String → FetchOutcome)
    (st : StreamState) (frag : Fragment) :
    StepShape st.currentParts (streamStep enableCdn outcomeOf st frag).currentParts ∧
    (∃ app, finalizeStream st = st.currentParts ++ app) := by
  constructor
  · match frag with
    | .text s isThought sig =>
      unfold streamStep
      by_cases hc :
          (enableCdn && containsCdnImages (st.pendingTextBuffer ++ s)) = true
      · simp only [hc, if_true]
        unfold spliceProcessed
        rcases hf : findLastTextIndex st.currentParts with _ | i
        · exact Or.inr (Or.inl ⟨_, rfl⟩)
        · exact Or.inr (Or.inr ⟨i, _, hf, rfl⟩)
      · simp only [Bool.not_eq_true] at hc
        simp only [hc, Bool.false_eq_true, if_false]
        unfold mergeTextPart
        rcases hl : st.currentParts.getLast? with _ | lp
        · exact Or.inr (Or.inl ⟨_, rfl⟩)
        · by_cases hcond : (lp.text.isSome && (lp.thought == isThought)) = true
          · simp only [hcond, if_true]
            refine Or.inl ⟨st.currentParts.dropLast, lp, _, ?_, rfl⟩
            have hne : st.currentParts ≠ [] := by
              intro h; rw [h] at hl; simp at hl
            have := List.dropLast_append_getLast hne
            rw [List.getLast?_eq_getLast st.currentParts hne] at hl
            simp only [Option.some.injEq] at hl
            rw [hl] at this
            exact this.symm
          · simp only [Bool.not_eq_true] at hcond
            simp only [hcond, Bool.false_eq_true, if_false]
            exact Or.inr (Or.inl ⟨_, rfl⟩)
    | .inline mimeType data isThought sig =>
      unfold streamStep
      by_cases hb : trimNonempty st.pendingTextBuffer.toList = true
      · simp only [hb, if_true]
        exact Or.inr (Or.inl ⟨_, by rw [List.append_assoc]⟩)
      · simp only [Bool.not_eq_true] at hb
        simp only [hb, Bool.false_eq_true, if_false]
        exact Or.inr (Or.inl ⟨_, rfl⟩)
  · unfold finalizeStream
    by_cases hb : trimNonempty st.pendingTextBuffer.toList = true
    · simp only [hb, if_true]
      exact ⟨_, rfl⟩
    · simp only [Bool.not_eq_true] at hb
      simp only [hb, Bool.false_eq_true, if_false]
      exact ⟨[], by simp⟩

/-! ### Claim C3 -/

theorem listStartsWith_self (n : List Char) : listStartsWith n n = true := by
  induction n with
  | nil => rfl
  | cons c cs ih => simp [listStartsWith, ih]

theorem listStartsWith_mono (n : List Char) :
    ∀ l e, listStartsWith n l = true → listStartsWith n (l ++ e) = true := by
  induction n with
  | nil => intro l e _; rfl
  | cons c cs ih =>
    intro l e h
    match l with
    | [] => simp [listStartsWith] at h
    | x :: xs =>
      simp only [listStartsWith, Bool.and_eq_true] at h
      simp only [List.cons_append, listStartsWith, Bool.and_eq_true]
      exact ⟨h.1, ih xs e h.2⟩

theorem listContainsSeg_nil_needle (l : List Char) :
    listContainsSeg [] l = true := by
  induction l with
  | nil => rfl
  | cons c cs ih =>
    simp only [listContainsSeg]
    rw [show listStartsWith [] (c :: cs) = true from rfl]
    simp

theorem listContainsSeg_append_right (n pre : List Char) :
    listContainsSeg n (pre ++ n) = true := by
  induction pre with
  | nil =>
    match n with
    | [] => rfl
    | c :: cs =>
      simp only [List.nil_append, listContainsSeg, Bool.or_eq_true]
      exact Or.inl (listStartsWith_self (c :: cs))
  | cons c cs ih =>
    simp only [List.cons_append, listContainsSeg, Bool.or_eq_true]
    exact Or.inr ih

theorem listContainsSeg_mono (n : List Char) :
    ∀ hay ext, listContainsSeg n hay = true →
      listContainsSeg n (hay ++ ext) = true := by
  intro hay
  induction hay with
  | nil =>
    intro ext h
    simp only [listContainsSeg, List.isEmpty_eq_true] at h
    subst h
    exact listContainsSeg_nil_needle ext
  | cons c cs ih =>
    intro ext h
    simp only [listContainsSeg, Bool.or_eq_true] at h
    simp only [List.cons_append, listContainsSeg, Bool.or_eq_true]
    rcases h with h | h
    · exact Or.inl (listStartsWith_mono n (c :: cs) ext h)
    · exact Or.inr (ih ext h)

theorem textChars_go (l : List ContentPart) :
    ∀ init, l.foldr (fun p acc => (p.text.getD "").toList ++ acc) init =
      textChars l ++ init := by
  induction l with
  | nil => intro init; simp [textChars]
  | cons p ps ih =>
    intro init
    simp only [List.foldr_cons, ih]
    rw [show textChars (p :: ps) =
      (p.text.getD "").toList ++ textChars ps from rfl]
    rw [List.append_assoc]

theorem textChars_append (l1 l2 : List ContentPart) :
    textChars (l1 ++ l2) = textChars l1 ++ textChars l2 := by
  unfold textChars
  rw [List.foldr_append, textChars_go]
  rfl

theorem eq_dropLast_concat {α : Type} {l : List α} {a : α}
    (h : l.getLast? = some a) : l = l.dropLast ++ [a] := by
  have hne : l ≠ [] := by intro h0; rw [h0] at h; simp at h
  have hd := List.dropLast_append_getLast hne
  rw [List.getLast?_eq_getLast l hne] at h
  simp only [Option.some.injEq] at h
  rw [h] at hd
  exact hd.symm

theorem zip_map_self {α β : Type} (g : α → β) (l : List α) :
    (l.map g).zip l = l.map (fun x => (g x, x)) := by
  induction l with
  | nil => rfl
  | cons a as ih => simp [ih]

theorem contains_of_eq_append (n hay pre : List Char)
    (h : hay = pre ++ n) : listContainsSeg n hay = true := by
  rw [h]; exact listContainsSeg_append_right n pre

/-- The failed-download fallback always leaves the rebuilt markup as a
suffix of the concatenated text. -/
theorem cdnFailureFallback_contains (acc : List ContentPart)
    (img : ParsedImage) (th : Bool) (sig : Option String) :
    listContainsSeg (fallbackMarkdown img).toList
      (textChars (cdnFailureFallback acc img th sig)) = true := by
  unfold cdnFailureFallback
  rcases hl : acc.getLast? with _ | lp
  · apply contains_of_eq_append _ _ (textChars acc)
    rw [textChars_append]
    simp [textChars, mkTextPart]
  · by_cases ht : jsTruthy lp.text = true
    · simp only [ht, if_true]
      apply contains_of_eq_append _ _
        (textChars acc.dropLast ++ (lp.text.getD "").toList ++
          (if (lp.text.getD "").toList.getLast? = some ' '
            then ("" : String) else " ").toList)
      rw [textChars_append]
      simp [textChars, List.append_assoc]
    · simp only [Bool.not_eq_true] at ht
      simp only [ht, Bool.false_eq_true, if_false]
      apply contains_of_eq_append _ _ (textChars acc)
      rw [textChars_append]
      simp [textChars, mkTextPart]

/-- Every step of the image-result fold only extends the concatenated text
on the right. -/
theorem cdnImageStep_extends (th : Bool) (sig : Option String)
    (acc : List ContentPart) (pr : Option BatchResult × ParsedImage) :
    ∃ ext, textChars (cdnImageStep th sig acc pr) = textChars acc ++ ext := by
  rcases pr with ⟨r, img⟩
  match r with
  | some b =>
    exact ⟨_, textChars_append acc [mkInlinePartRaw b.mimeType b.base64Data th sig]⟩
  | none =>
    show ∃ ext, textChars (cdnFailureFallback acc img th sig) = _
    unfold cdnFailureFallback
    rcases hl : acc.getLast? with _ | lp
    · exact ⟨_, textChars_append acc [mkTextPart (fallbackMarkdown img) th sig]⟩
    · by_cases ht : jsTruthy lp.text = true
      · simp only [ht, if_true]
        have hacc : acc = acc.dropLast ++ [lp] := eq_dropLast_concat hl
        refine ⟨(if (lp.text.getD "").toList.getLast? = some ' '
            then ("" : String) else " ").toList ++
            (fallbackMarkdown img).toList, ?_⟩
        conv_rhs => rw [hacc]
        rw [textChars_append, textChars_append]
        simp [textChars, List.append_assoc]
      · simp only [Bool.not_eq_true] at ht
        simp only [ht, Bool.false_eq_true, if_false]
        exact ⟨_, textChars_append acc [mkTextPart (fallbackMarkdown img) th sig]⟩

/-- One step of the image-result fold, expressed over the image list (the
batch result array is positionally aligned, so step `i` sees exactly
`batchResultAt` of its own URL). -/
def cdnFoldStep (f : String → FetchOutcome) (th : Bool) (sig : Option String)
    (acc : List ContentPart) (img : ParsedImage) : List ContentPart :=
  cdnImageStep th sig acc (batchResultAt f img.url, img)

theorem cdnFold_preserves (f : String → FetchOutcome) (th : Bool)
    (sig : Option String) (m : List Char) :
    ∀ (l : List ParsedImage) (acc : List ContentPart),
      listContainsSeg m (textChars acc) = true →
      listContainsSeg m (textChars (l.foldl (cdnFoldStep f th sig) acc)) = true := by
  intro l
  induction l with
  | nil => intro acc h; exact h
  | cons a as ih =>
    intro acc h
    simp only [List.foldl_cons]
    apply ih
    obtain ⟨ext, hext⟩ :=
      cdnImageStep_extends th sig acc (batchResultAt f a.url, a)
    rw [show cdnFoldStep f th sig acc a =
      cdnImageStep th sig acc (batchResultAt f a.url, a) from rfl, hext]
    exact listContainsSeg_mono m (textChars acc) ext h

theorem cdnFold_introduces (f : String → FetchOutcome) (th : Bool)
    (sig : Option String) :
    ∀ (l : List ParsedImage) (acc : List ContentPart) (img : ParsedImage),
      img ∈ l → batchResultAt f img.url = none →
      listContainsSeg (fallbackMarkdown img).toList
        (textChars (l.foldl (cdnFoldStep f th sig) acc)) = true := by
  intro l
  induction l with
  | nil => intro acc img h; intro _; simp at h
  | cons a as ih =>
    intro acc img hmem hfail
    simp only [List.foldl_cons]
    rcases List.mem_cons.mp hmem with h | h
    · subst h
      apply cdnFold_preserves
      rw [show cdnFoldStep f th sig acc img =
        cdnImageStep th sig acc (batchResultAt f img.url, img) from rfl, hfail]
      exact cdnFailureFallback_contains acc img th sig
    · exact ih _ img h hfail

/-- When the parsed text has at least one image reference,
`processTextWithCdnImages` is the image-list fold of `cdnFoldStep` over
the seed of non-blank text-segment parts. -/
theorem processText_eq_fold (f : String → FetchOutcome) (text : String)
    (th : Bool) (sig : Option String)
    (hne : (parseMarkdownImages text).imageUrls.isEmpty = false) :
    processTextWithCdnImages f text th sig =
      (parseMarkdownImages text).imageUrls.foldl (cdnFoldStep f th sig)
        ((parseMarkdownImages text).textParts.foldl
          (fun acc tp => if trimNonempty tp.toList
            then acc ++ [mkTextPart tp th sig] else acc) []) := by
  unfold processTextWithCdnImages
  simp only [hne, Bool.false_eq_true, if_false]
  rw [show batchDownloadImages f
      ((parseMarkdownImages text).imageUrls.map (fun i => i.url)) =
    ((parseMarkdownImages text).imageUrls.map (fun i => i.url)).map
      (batchResultAt f) from rfl]
  rw [List.map_map, zip_map_self, List.foldl_map]
  rfl

/-- Counterexample to C3: for the failed reference `![](http://cdn.img/x.png)`
(empty alt) the output text is `a ![image](http://cdn.img/x.png)` — the
code substitutes `image` for the empty alt (and in general inserts a
space), so the original `![alt](url)` substring is *not* contained
verbatim in the final output. -/
theorem cdn_failure_not_verbatim :
    partsText (processTextWithCdnImages failOutcome
      "a ![](http://cdn.img/x.png)" false none) =
      "a ![image](http://cdn.img/x.png)" ∧
    containsSubstr
      (partsText (processTextWithCdnImages failOutcome
        "a ![](http://cdn.img/x.png)" false none))
      "![](http://cdn.img/x.png)" = false := by
  decide

/-- C3 as amended: for every image reference whose fetch fails, the final
output contains the substring `![alt'](url)` where `alt'` is the original
alt text or the literal `image` when the alt is empty; it is appended
after the already-accumulated content (to the most recent text part, with
a space inserted unless that part's text ends with one, or as a new text
part), i.e. after all plain-text segments rather than at the reference's
original position. -/
theorem cdn_failure_markup_amended (f : String → FetchOutcome) (text : String)
    (th : Bool) (sig : Option String) (img : ParsedImage)
    (hmem : img ∈ (parseMarkdownImages text).imageUrls)
    (hfail : batchResultAt f img.url = none) :
    containsSubstr (partsText (processTextWithCdnImages f text th sig))
      (fallbackMarkdown img) = true := by
  have hne : (parseMarkdownImages text).imageUrls.isEmpty = false := by
    cases him : (parseMarkdownImages text).imageUrls.isEmpty
    · rfl
    · rw [List.isEmpty_iff] at him
      rw [him] at hmem
      simp at hmem
  rw [processText_eq_fold f text th sig hne]
  exact cdnFold_introduces f th sig _ _ img hmem hfail

/-- Witness for C3's amended theorem at the concrete failing input: the
output for `a ![](http://cdn.img/x.png)` contains
`![image](http://cdn.img/x.png)`. -/
theorem cdn_failure_markup_amended_witness :
    containsSubstr
      (partsText (processTextWithCdnImages failOutcome
        "a ![](http://cdn.img/x.png)" false none))
      (fallbackMarkdown ⟨"http://cdn.img/x.png", ""⟩) = true :=
  cdn_failure_markup_amended failOutcome "a ![](http://cdn.img/x.png)"
    false none ⟨"http://cdn.img/x.png", ""⟩ (by decide) (by decide)
